import Mathlib

/-!
Verification of the failure-logger backend's two-phase upload protocol:
key derivation (internal/keys), presigned-URL issuance and completion
verification (internal/handlers, internal/s3client), request validation
(internal/validation) and the SES notifier boundary (internal/email).

The Go code is embedded shallowly: strings are Lean `String`s, Go's
`path.Join`/`path.Clean` are modelled character-for-character on
`List Char`, the S3 and SES collaborators become explicit oracles, and
each HTTP handler becomes a pure function from its request and oracles
to the response it writes.
-/

namespace FailureLogger

/-! ## Go `path.Clean` / `path.Join`

`path.Clean` is Go's lexical path normalisation: split on `/`, drop empty
and `.` segments, resolve `..` against the segment stack (keeping leading
`..`s in a relative path, dropping them at the root of a rooted path),
rejoin.  `path.Join` drops empty elements, joins the rest with `/` and
cleans the result; it returns `""` when every element is empty. -/

/-- Split a character list into its `/`-separated segments.  Always returns
at least one (possibly empty) segment, like Go's `strings.Split`. -/
def splitSlash : List Char → List (List Char)
  | [] => [[]]
  | c :: cs =>
    if c = '/' then [] :: splitSlash cs
    else
      match splitSlash cs with
      | s :: rest => (c :: s) :: rest
      | [] => [[c]]

/-- The `..` case of Go's `path.Clean` loop: pop the newest poppable
segment of the stack, keep accumulating leading `..`s in a relative path,
drop `..` at the root of a rooted one. -/
def popDotDot (rooted : Bool) (acc : List (List Char)) : List (List Char) :=
  match acc with
  | a :: acc' =>
    if rooted = false ∧ a = ['.', '.'] then ['.', '.'] :: a :: acc'
    else acc'
  | [] => if rooted then [] else [['.', '.']]

/-- The segment-stack loop of Go's `path.Clean`.  `acc` is the output stack,
most recent segment first; the result is the final stack in path order. -/
def cleanSegs (rooted : Bool) : List (List Char) → List (List Char) → List (List Char)
  | [], acc => acc.reverse
  | s :: rest, acc =>
    if s = [] ∨ s = ['.'] then cleanSegs rooted rest acc
    else if s = ['.', '.'] then cleanSegs rooted rest (popDotDot rooted acc)
    else cleanSegs rooted rest (s :: acc)

/-- Join segments with `/`, the inverse of `splitSlash`. -/
def joinSegs : List (List Char) → List Char
  | [] => []
  | [s] => s
  | s :: rest => s ++ '/' :: joinSegs rest

/-- Go's `rooted := path[0] == '/'` test (the path is non-empty there). -/
def isRooted : List Char → Bool
  | [] => false
  | c :: _ => c = '/'

/-- Go `path.Clean` (package `path`), as called by `path.Join` in
`internal/keys/keys.go`. -/
def pathClean (p : String) : String :=
  if p = "" then "."
  else
    let cs := p.data
    let rooted := isRooted cs
    let body := joinSegs (cleanSegs rooted (splitSlash cs) [])
    if rooted then String.mk ('/' :: body)
    else if body = [] then "."
    else String.mk body

/-- Join non-empty elements with `/`. -/
def joinNonEmpty : List String → String
  | [] => ""
  | [s] => s
  | s :: rest => s ++ "/" ++ joinNonEmpty rest

/-- Go `path.Join`: drop empty elements, join with `/`, clean; `""` when
everything was empty. -/
def pathJoin (elems : List String) : String :=
  let ne := elems.filter (fun s => s ≠ "")
  if ne = [] then "" else pathClean (joinNonEmpty ne)

/-! ## Dates and Go's `Format("2006/01/02")` -/

/-- A UTC calendar date as the key builder uses it (`time.Now().UTC()`
truncated to year/month/day by the format string). -/
structure GoDate where
  year : Nat
  month : Nat
  day : Nat
deriving DecidableEq

/-- Decimal digit character. -/
def digitChar (n : Nat) : Char := Char.ofNat (48 + n)

/-- Decimal digits of `n` (most significant first) prepended to `acc`,
matching Go's `appendInt` digit loop; `fuel` only forces structural
termination and `fuel ≥ 1` suffices for every `n` reachable below, since
`n` shrinks by a factor of ten per step and `fuel` starts at `n`. -/
def decDigitsAux : Nat → Nat → List Char → List Char
  | 0, _, acc => acc
  | fuel + 1, n, acc =>
    if n = 0 then acc else decDigitsAux fuel (n / 10) (digitChar (n % 10) :: acc)

/-- Go's zero-padded fixed-width decimal (`appendInt(b, v, width)`), used by
`Format` for `2006`, `01` and `02`. -/
def padInt (width n : Nat) : List Char :=
  let ds := if n = 0 then ['0'] else decDigitsAux n n []
  List.replicate (width - ds.length) '0' ++ ds

/-- `date.Format("2006/01/02")`. -/
def formatDate (d : GoDate) : String :=
  String.mk (padInt 4 d.year) ++ "/" ++ String.mk (padInt 2 d.month) ++ "/" ++
    String.mk (padInt 2 d.day)

/-! ## `internal/keys`: the key Builder -/

/-- `keys.Builder` (internal/keys/keys.go): project, env, failureID and the
date captured at construction time. -/
structure Builder where
  project : String
  env : String
  failureID : String
  date : GoDate
deriving DecidableEq

/-- `keys.NewBuilder`: the date is captured once, at construction
(`time.Now().UTC()`); it is passed here explicitly as `now`. -/
def NewBuilder (project env failureID : String) (now : GoDate) : Builder :=
  ⟨project, env, failureID, now⟩

/-- `Builder.Prefix`: `fmt.Sprintf("failures/%s/%s/%s/%s/", project, env,
date.Format("2006/01/02"), failureID)`. -/
def Builder.dirPath (b : Builder) : String :=
  "failures/" ++ b.project ++ "/" ++ b.env ++ "/" ++ formatDate b.date ++ "/" ++
    b.failureID ++ "/"

/-- `Builder.Envelope`: `path.Join(b.Prefix(), "envelope.json")`. -/
def Builder.envelope (b : Builder) : String := pathJoin [b.dirPath, "envelope.json"]

/-- `Builder.RequestRaw`. -/
def Builder.requestRaw (b : Builder) : String := pathJoin [b.dirPath, "request.raw"]

/-- `Builder.RequestHeaders`. -/
def Builder.requestHeaders (b : Builder) : String :=
  pathJoin [b.dirPath, "request.headers.json"]

/-- `Builder.ResponseRaw`. -/
def Builder.responseRaw (b : Builder) : String := pathJoin [b.dirPath, "response.raw"]

/-- `Builder.Checksums`. -/
def Builder.checksums (b : Builder) : String := pathJoin [b.dirPath, "checksums.json"]

/-- `Builder.File`: `path.Join(b.Prefix(), "files", filename)`. -/
def Builder.file (b : Builder) (filename : String) : String :=
  pathJoin [b.dirPath, "files", filename]

/-- `Builder.RequiredKeys`. -/
def Builder.requiredKeys (b : Builder) : List String :=
  [b.envelope, b.requestRaw, b.requestHeaders, b.checksums]

/-- `Builder.AllKeys`. -/
def Builder.allKeys (b : Builder) (filenames : List String) : List String :=
  b.requiredKeys ++ [b.responseRaw] ++ filenames.map b.file

/-! ## `internal/models`: request and response shapes -/

/-- `models.FileInfo`. -/
structure FileInfo where
  name : String
  filename : String
  contentType : String
  bytes : Int
deriving DecidableEq

/-- `models.RequestInfo`. -/
structure RequestInfo where
  method : String
  url : String
  contentType : String
  bodyBytes : Int
  files : List FileInfo
deriving DecidableEq

/-- `models.ClientInfo`. -/
structure ClientInfo where
  appVersion : String
  platform : String
deriving DecidableEq

/-- `models.UploadTicketRequest`. -/
structure UploadTicketRequest where
  project : String
  env : String
  request : RequestInfo
  client : ClientInfo
deriving DecidableEq

/-- `models.PresignedUpload`. -/
structure PresignedUpload where
  key : String
  putURL : String
deriving DecidableEq

/-- `models.UploadURLs`. -/
structure UploadURLs where
  envelope : PresignedUpload
  requestRaw : PresignedUpload
  requestHeaders : PresignedUpload
  responseRaw : PresignedUpload
  files : List PresignedUpload
  checksums : PresignedUpload
deriving DecidableEq

/-- `models.UploadTicketResponse` (the field written `S3Prefix` in Go is
`s3Dir` here). -/
structure UploadTicketResponse where
  failureID : String
  s3Dir : String
  uploads : UploadURLs
  expiresInSeconds : Int
deriving DecidableEq

/-- `models.UploadCompleteRequest`; the optional `sha256` map is modelled as
an association list (the handler never reads it). -/
structure UploadCompleteRequest where
  failureID : String
  project : String
  env : String
  uploadedKeys : List String
  sha256 : List (String × String)
deriving DecidableEq

/-- `models.ErrorResponse`. -/
structure ErrorResponse where
  error : String
  code : String
  details : String
deriving DecidableEq

/-! ## `internal/validation` -/

/-- The character class `[a-zA-Z0-9_-]` shared by `projectRegex` and
`envRegex`. -/
def allowedChar (c : Char) : Bool :=
  (('a' ≤ c ∧ c ≤ 'z') ∨ ('A' ≤ c ∧ c ≤ 'Z') ∨ ('0' ≤ c ∧ c ≤ '9')
    ∨ c = '_' ∨ c = '-')

/-- `projectRegex.MatchString`: `^[a-zA-Z0-9_-]{1,64}$`. -/
def projectRegexMatch (s : String) : Bool :=
  1 ≤ s.data.length ∧ s.data.length ≤ 64 ∧ s.data.all allowedChar

/-- `envRegex.MatchString`: `^[a-zA-Z0-9_-]{1,32}$`. -/
def envRegexMatch (s : String) : Bool :=
  1 ≤ s.data.length ∧ s.data.length ≤ 32 ∧ s.data.all allowedChar

/-- `methodRegex.MatchString`: `^(GET|POST|PUT|PATCH|DELETE|HEAD|OPTIONS)$`. -/
def methodRegexMatch (s : String) : Bool :=
  s = "GET" ∨ s = "POST" ∨ s = "PUT" ∨ s = "PATCH" ∨ s = "DELETE" ∨
    s = "HEAD" ∨ s = "OPTIONS"

/-- `platformRegex.MatchString`: `^(ios|android|web|desktop)$`. -/
def platformRegexMatch (s : String) : Bool :=
  s = "ios" ∨ s = "android" ∨ s = "web" ∨ s = "desktop"

/-- The character-list test behind `strings.HasPrefix`. -/
def leadsChars : List Char → List Char → Bool
  | [], _ => true
  | _ :: _, [] => false
  | a :: as, b :: bs => a = b ∧ leadsChars as bs

/-- `strings.HasPrefix(s, pre)`. -/
def strLeads (pre s : String) : Bool := leadsChars pre.data s.data

/-- `strings.ToUpper` (the inputs here are ASCII method names). -/
def strToUpper (s : String) : String := String.mk (s.data.map Char.toUpper)

/-- `strings.ToLower` (the inputs here are ASCII platform names). -/
def strToLower (s : String) : String := String.mk (s.data.map Char.toLower)

/-- `config.Config`, restricted to the fields the handlers read. -/
structure Config where
  maxBodyBytes : Int
  maxFileBytes : Int
  maxTotalBytes : Int
  presignTTLSeconds : Int
deriving DecidableEq

/-- A `validation.ValidationError` as the pair (Field, Message). -/
abbrev ValidationIssue := String × String

/-- The per-file loop of `ValidateUploadTicketRequest`, threading the index,
error list and `totalFileBytes` accumulator. -/
def validateFiles (cfg : Config) : List FileInfo → Nat → List ValidationIssue → Int →
    List ValidationIssue × Int
  | [], _, errs, total => (errs, total)
  | f :: rest, i, errs, total =>
    let errs := errs ++
      (if f.filename = "" then
        [("request.files[" ++ toString i ++ "].filename", "required")] else [])
    let errs := errs ++
      (if f.bytes < 0 then
        [("request.files[" ++ toString i ++ "].bytes", "cannot be negative")]
      else if f.bytes > cfg.maxFileBytes then
        [("request.files[" ++ toString i ++ "].bytes",
          "exceeds maximum allowed size (" ++ toString cfg.maxFileBytes ++ " bytes)")]
      else [])
    validateFiles cfg rest (i + 1) errs (total + f.bytes)

/-- `validation.ValidateUploadTicketRequest`. -/
def ValidateUploadTicketRequest (req : UploadTicketRequest) (cfg : Config) :
    List ValidationIssue :=
  let errs : List ValidationIssue := []
  let errs := errs ++
    (if req.project = "" then [("project", "required")]
     else if ¬ projectRegexMatch req.project then
       [("project", "invalid format (alphanumeric, underscore, hyphen, max 64 chars)")]
     else [])
  let errs := errs ++
    (if req.env = "" then [("env", "required")]
     else if ¬ envRegexMatch req.env then
       [("env", "invalid format (alphanumeric, underscore, hyphen, max 32 chars)")]
     else [])
  let errs := errs ++
    (if req.request.method = "" then [("request.method", "required")]
     else if ¬ methodRegexMatch (strToUpper req.request.method) then
       [("request.method", "invalid HTTP method")]
     else [])
  let errs := errs ++
    (if req.request.url = "" then [("request.url", "required")]
     else if ¬ (strLeads "http://" req.request.url ∨ strLeads "https://" req.request.url)
     then [("request.url", "must be a valid HTTP(S) URL")]
     else [])
  let errs := errs ++
    (if req.request.bodyBytes < 0 then [("request.bodyBytes", "cannot be negative")]
     else if req.request.bodyBytes > cfg.maxBodyBytes then
       [("request.bodyBytes",
         "exceeds maximum allowed size (" ++ toString cfg.maxBodyBytes ++ " bytes)")]
     else [])
  let (errs, totalFileBytes) := validateFiles cfg req.request.files 0 errs 0
  let totalBytes := req.request.bodyBytes + totalFileBytes
  let errs := errs ++
    (if totalBytes > cfg.maxTotalBytes then
      [("totalBytes",
        "total upload size exceeds maximum (" ++ toString cfg.maxTotalBytes ++ " bytes)")]
     else [])
  let errs := errs ++
    (if req.client.platform ≠ "" ∧
        ¬ platformRegexMatch (strToLower req.client.platform) then
      [("client.platform", "must be one of: ios, android, web, desktop")]
     else [])
  errs

/-- `validation.ValidateUploadCompleteRequest`. -/
def ValidateUploadCompleteRequest (req : UploadCompleteRequest) :
    List ValidationIssue :=
  let errs : List ValidationIssue := []
  let errs := errs ++
    (if req.failureID = "" then [("failureId", "required")] else [])
  let errs := errs ++
    (if req.project = "" then [("project", "required")]
     else if ¬ projectRegexMatch req.project then [("project", "invalid format")]
     else [])
  let errs := errs ++
    (if req.env = "" then [("env", "required")]
     else if ¬ envRegexMatch req.env then [("env", "invalid format")]
     else [])
  let errs := errs ++
    (if req.uploadedKeys.length = 0 then [("uploadedKeys", "required")] else [])
  errs

/-! ## `internal/s3client`: the Storage Authority oracle

A `HeadResult` is the outcome the AWS `HeadObject` call reports for one
key: the object is there, the call answered cleanly that it is not, or the
call itself failed (transport/auth).  The Go code receives the last two as
a non-nil `err` and cannot tell them apart. -/

/-- Outcome of `HeadObject` for one key. -/
inductive HeadResult where
  | found
  | notFound
  | transportErr
deriving DecidableEq

/-- An opaque Go error value. -/
structure GoErr where
  msg : String
deriving DecidableEq

/-- `Presigner.ObjectExists` (internal/s3client/presigner.go lines 77-87):
whatever the `HeadObject` error is, the function returns `(false, nil)`;
only a clean success yields `(true, nil)`.  No error is ever propagated. -/
def ObjectExists (head : String → HeadResult) (key : String) : Bool × Option GoErr :=
  match head key with
  | .found => (true, none)
  | .notFound => (false, none)
  | .transportErr => (false, none)

/-- `Presigner.VerifyObjectsExist` (lines 90-102): walk the keys in order,
abort with the first non-nil error from `ObjectExists`, otherwise collect
the keys reported absent. -/
def VerifyObjectsExist (head : String → HeadResult) :
    List String → Except GoErr (List String)
  | [] => .ok []
  | key :: rest =>
    match ObjectExists head key with
    | (_, some e) => .error e
    | (exists_, none) =>
      match VerifyObjectsExist head rest with
      | .error e => .error e
      | .ok missing => .ok (if exists_ then missing else key :: missing)

/-! ## `internal/email`: the Notifier payload -/

/-- `email.FailureNotification`; `UploadComplete` fills only the four fields
below, the rest stay at their zero value. -/
structure FailureNotification where
  failureID : String
  project : String
  env : String
  method : String := ""
  url : String := ""
  appVersion : String := ""
  platform : String := ""
  envelopeURL : String
deriving DecidableEq

/-! ## `internal/handlers`: UploadTicket -/

/-- The declared-or-default content type
(`if contentType == "" { contentType = "application/octet-stream" }`). -/
def ctOrDefault (s : String) : String :=
  if s = "" then "application/octet-stream" else s

/-- The per-file loop at the end of `generatePresignedURLs` (handlers.go
lines 199-212): presign each file key in order, abort on the first error. -/
def presignFiles (presignPut : String → String → Option String) (kb : Builder) :
    List FileInfo → Option (List PresignedUpload)
  | [] => some []
  | f :: rest =>
    match presignPut (kb.file f.filename) (ctOrDefault f.contentType) with
    | none => none
    | some url =>
      match presignFiles presignPut kb rest with
      | none => none
      | some us => some (⟨kb.file f.filename, url⟩ :: us)

/-- `Handler.generatePresignedURLs` (handlers.go lines 156-215).
`presignPut key contentType` is the Storage Authority oracle: `some url` on
success, `none` when presigning errors.  Each slot is requested in source
order; the first failure aborts with no partial result. -/
def generatePresignedURLs (presignPut : String → String → Option String)
    (kb : Builder) (req : UploadTicketRequest) : Option UploadURLs := do
  let u1 ← presignPut kb.envelope "application/json"
  let u2 ← presignPut kb.requestRaw (ctOrDefault req.request.contentType)
  let u3 ← presignPut kb.requestHeaders "application/json"
  let u4 ← presignPut kb.responseRaw "application/octet-stream"
  let u5 ← presignPut kb.checksums "application/json"
  let fus ← presignFiles presignPut kb req.request.files
  pure ⟨⟨kb.envelope, u1⟩, ⟨kb.requestRaw, u2⟩, ⟨kb.requestHeaders, u3⟩,
    ⟨kb.responseRaw, u4⟩, fus, ⟨kb.checksums, u5⟩⟩

/-- The (key, contentType) pair of every write-authorization request
`generatePresignedURLs` makes, in source order. -/
def slotRequests (kb : Builder) (req : UploadTicketRequest) : List (String × String) :=
  [(kb.envelope, "application/json"),
   (kb.requestRaw, ctOrDefault req.request.contentType),
   (kb.requestHeaders, "application/json"),
   (kb.responseRaw, "application/octet-stream"),
   (kb.checksums, "application/json")] ++
    req.request.files.map (fun f => (kb.file f.filename, ctOrDefault f.contentType))

/-- Every presigned upload of a ticket response, fixed slots first then
files, mirroring the fields of `models.UploadURLs`. -/
def UploadURLs.slots (u : UploadURLs) : List PresignedUpload :=
  [u.envelope, u.requestRaw, u.requestHeaders, u.responseRaw, u.checksums] ++ u.files

/-- `Handler.UploadTicket` (handlers.go lines 35-76) after JSON decoding:
validation gate, fresh `failureID` (the `uuid.New().String()` value is the
`freshID` argument), key derivation at the current date `now`, presigning.
`.error (status, body)` is a `writeError`, `.ok` the 200 response. -/
def UploadTicket (cfg : Config) (presignPut : String → String → Option String)
    (freshID : String) (now : GoDate) (req : UploadTicketRequest) :
    Except (Nat × ErrorResponse) UploadTicketResponse :=
  if ValidateUploadTicketRequest req cfg ≠ [] then
    .error (400, ⟨"Validation failed", "validation_error", ""⟩)
  else
    match generatePresignedURLs presignPut (NewBuilder req.project req.env freshID now)
        req with
    | none => .error (500, ⟨"Failed to generate presigned URLs", "presign_failed", ""⟩)
    | some uploads =>
      .ok ⟨freshID, (NewBuilder req.project req.env freshID now).dirPath, uploads,
        cfg.presignTTLSeconds⟩

/-! ## `internal/handlers`: UploadComplete -/

/-- The collaborators `UploadComplete` talks to: the S3 `HeadObject`
behaviour per key, the presigned-GET oracle (`some url` or an error), and
the optional SES sender (`emailerPresent` is `h.emailer != nil`,
`emailSendOk` whether `SendFailureNotification` returns nil). -/
structure CompleteDeps where
  head : String → HeadResult
  presignGet : String → Option String
  emailerPresent : Bool
  emailSendOk : Bool

/-- The body `UploadComplete` writes: an `ErrorResponse` via `writeError`,
or `models.UploadCompleteResponse{Status: "ok"}`. -/
inductive CompleteBody where
  | failed (e : ErrorResponse)
  | ok (status : String)
deriving DecidableEq

/-- Everything observable about one `UploadComplete` call: the HTTP status
and body written, the `missing` list the handler logs on the
missing-objects path, the notifications handed to the Notifier, and
whether a notifier failure was logged (and swallowed). -/
structure CompleteResult where
  status : Nat
  body : CompleteBody
  loggedMissing : List String
  notifications : List FailureNotification
  emailErrorLogged : Bool
deriving DecidableEq

/-- `Handler.UploadComplete` (handlers.go lines 78-146) after JSON
decoding.  `now` is the date `keys.NewBuilder` captures when re-deriving
the envelope key for the read authorization. -/
def UploadComplete (deps : CompleteDeps) (now : GoDate)
    (req : UploadCompleteRequest) : CompleteResult :=
  if ValidateUploadCompleteRequest req ≠ [] then
    ⟨400, .failed ⟨"Validation failed", "validation_error", ""⟩, [], [], false⟩
  else
    match VerifyObjectsExist deps.head req.uploadedKeys with
    | .error _ =>
      ⟨500, .failed ⟨"Failed to verify uploaded objects", "verification_failed", ""⟩,
        [], [], false⟩
    | .ok missing =>
      if missing.length > 0 then
        ⟨400, .failed ⟨"Some objects were not found in S3", "missing_objects", ""⟩,
          missing, [], false⟩
      else
        let kb := NewBuilder req.project req.env req.failureID now
        let envelopeURL :=
          match deps.presignGet kb.envelope with
          | some url => url
          | none => ""   -- "Continue without URL"
        let notifs :=
          if deps.emailerPresent then
            [{ failureID := req.failureID, project := req.project, env := req.env,
               envelopeURL := envelopeURL : FailureNotification }]
          else []
        let emailErr := deps.emailerPresent && !deps.emailSendOk
        ⟨200, .ok "ok", [], notifs, emailErr⟩

/-! ## Specification-side definitions

The definitions below name the notions the claims quantify over; they are
not translations of Go code. -/

/-- A path segment `path.Clean` passes through untouched: non-empty, no
`/`, and neither `.` nor `..`. -/
def goodSeg (s : List Char) : Prop :=
  s ≠ [] ∧ '/' ∉ s ∧ s ≠ ['.'] ∧ s ≠ ['.', '.']

instance (s : List Char) : Decidable (goodSeg s) := by
  unfold goodSeg; infer_instance

/-- A string the validation gate admits for project/env (and that UUIDs
satisfy for failure IDs): non-empty, every character in `[a-zA-Z0-9_-]`. -/
def cleanName (s : String) : Prop :=
  s ≠ "" ∧ s.data.all allowedChar = true

instance (s : String) : Decidable (cleanName s) := by
  unfold cleanName; infer_instance

/-- The segments of a bundle's key namespace after the leading `failures`:
project, env, zero-padded year, month, day, failureID. -/
def tailSegs (b : Builder) : List (List Char) :=
  [b.project.data, b.env.data, padInt 4 b.date.year,
    padInt 2 b.date.month, padInt 2 b.date.day, b.failureID.data]

/-- The seven `/`-separated segments of a bundle's key namespace, in order:
`failures`, project, env, zero-padded year, month, day, failureID. -/
def dirSegs (b : Builder) : List (List Char) :=
  "failures".data :: tailSegs b

/-- `a` is a (string) prefix of `b`. -/
def StrLeads (a b : String) : Prop := ∃ t, a ++ t = b

/-! ## Concrete fixtures used to instantiate the theorems -/

/-- A configuration with the production default ceilings. -/
def sampleCfg : Config := ⟨10485760, 52428800, 104857600, 900⟩

/-- A request the validation gate accepts, declaring one attachment. -/
def sampleTicketReq : UploadTicketRequest :=
  ⟨"myapp", "prod",
    ⟨"POST", "https://api.example.com/v1/submit", "application/json", 1024,
      [⟨"photo", "a.jpg", "image/jpeg", 100⟩]⟩,
    ⟨"1.2.3", "ios"⟩⟩

/-- A completion claim the validation gate accepts. -/
def sampleCompleteReq : UploadCompleteRequest :=
  ⟨"abc-123", "myapp", "prod",
    ["failures/myapp/prod/2024/03/15/abc-123/envelope.json",
     "failures/myapp/prod/2024/03/15/abc-123/request.raw",
     "failures/myapp/prod/2024/03/15/abc-123/request.headers.json",
     "failures/myapp/prod/2024/03/15/abc-123/checksums.json"], []⟩

/-- A Storage Authority that presigns every request. -/
def okPresign : String → String → Option String := fun _ _ => some "https://signed.example/put"

/-- A Storage Authority whose presigning always errors. -/
def failPresign : String → String → Option String := fun _ _ => none

/-- A store where every `HeadObject` finds its key. -/
def allFoundHead : String → HeadResult := fun _ => .found

/-- A store that cleanly reports every key absent. -/
def noneFoundHead : String → HeadResult := fun _ => .notFound

/-- A store whose `HeadObject` calls all fail with transport errors. -/
def errHead : String → HeadResult := fun _ => .transportErr

/-- A presigned-GET oracle that always succeeds. -/
def okGet : String → Option String := fun _ => some "https://signed.example/get"

/-- The sample clock. -/
def sampleDate : GoDate := ⟨2024, 3, 15⟩

/-- The ticket a handler outcome carries, when it succeeded. -/
def ticketRespOf (r : Except (Nat × ErrorResponse) UploadTicketResponse) :
    Option UploadTicketResponse :=
  match r with
  | .ok a => some a
  | .error _ => none

/-! ## Basic lemmas about the path machinery -/

theorem strExt {a b : String} (h : a.data = b.data) : a = b := by
  cases a; cases b; exact congrArg String.mk h

theorem mk_ne_empty {l : List Char} (h : l ≠ []) : String.mk l ≠ "" := by
  intro hc
  exact h (by simpa using congrArg String.data hc)

theorem ne_empty_of_data_ne_nil {s : String} (h : s.data ≠ []) : s ≠ "" := by
  intro hc; exact h (by simp [hc])

theorem splitSlash_ne_nil (l : List Char) : splitSlash l ≠ [] := by
  cases l with
  | nil => simp [splitSlash]
  | cons c cs =>
    rw [splitSlash]
    split
    · simp
    · cases hs : splitSlash cs with
      | nil => simp
      | cons s rest => simp

theorem splitSlash_of_noSlash (l : List Char) (h : '/' ∉ l) : splitSlash l = [l] := by
  induction l with
  | nil => rfl
  | cons c cs ih =>
    have hc : c ≠ '/' := fun e => h (by simp [e])
    have hcs : '/' ∉ cs := fun m => h (by simp [m])
    rw [splitSlash, if_neg hc, ih hcs]

theorem splitSlash_append (a b : List Char) (h : '/' ∉ a) :
    splitSlash (a ++ '/' :: b) = a :: splitSlash b := by
  induction a with
  | nil => simp [splitSlash]
  | cons c cs ih =>
    have hc : c ≠ '/' := fun e => h (by simp [e])
    have hcs : '/' ∉ cs := fun m => h (by simp [m])
    rw [List.cons_append, splitSlash, if_neg hc, ih hcs]

theorem joinSegs_cons_cons (s t : List Char) (ts : List (List Char)) :
    joinSegs (s :: t :: ts) = s ++ '/' :: joinSegs (t :: ts) := rfl

theorem joinSegs_ne_nil (s : List Char) (rest : List (List Char)) (h : s ≠ []) :
    joinSegs (s :: rest) ≠ [] := by
  cases rest with
  | nil => simpa [joinSegs] using h
  | cons t ts =>
    rw [joinSegs_cons_cons]
    intro hc
    exact h (List.append_eq_nil.mp hc).1

theorem splitSlash_join (ss : List (List Char)) (hne : ss ≠ [])
    (h : ∀ s ∈ ss, '/' ∉ s) : splitSlash (joinSegs ss) = ss := by
  induction ss with
  | nil => exact absurd rfl hne
  | cons s rest ih =>
    cases rest with
    | nil => simp [joinSegs, splitSlash_of_noSlash s (h s (by simp))]
    | cons t ts =>
      rw [joinSegs_cons_cons, splitSlash_append _ _ (h s (by simp))]
      rw [ih (by simp) (fun x hx => h x (by simp [hx]))]

theorem joinSegs_append (xs ys : List (List Char)) (hx : xs ≠ []) (hy : ys ≠ []) :
    joinSegs (xs ++ ys) = joinSegs xs ++ '/' :: joinSegs ys := by
  induction xs with
  | nil => exact absurd rfl hx
  | cons x rest ih =>
    cases rest with
    | nil =>
      cases ys with
      | nil => exact absurd rfl hy
      | cons y ys' => simp [joinSegs, joinSegs_cons_cons]
    | cons x' rest' =>
      show joinSegs (x :: (x' :: (rest' ++ ys))) =
        joinSegs (x :: x' :: rest') ++ '/' :: joinSegs ys
      rw [joinSegs_cons_cons x x' (rest' ++ ys), joinSegs_cons_cons x x' rest']
      have h3 : x' :: (rest' ++ ys) = (x' :: rest') ++ ys := rfl
      rw [h3, ih (by simp)]
      simp

theorem cleanSegs_all_good (r : Bool) (segs : List (List Char))
    (h : ∀ s ∈ segs, s = [] ∨ (s ≠ ['.'] ∧ s ≠ ['.', '.'])) :
    ∀ acc, cleanSegs r segs acc = acc.reverse ++ segs.filter (· ≠ []) := by
  induction segs with
  | nil => intro acc; simp [cleanSegs]
  | cons s rest ih =>
    intro acc
    have hrest : ∀ x ∈ rest, x = [] ∨ (x ≠ ['.'] ∧ x ≠ ['.', '.']) :=
      fun x hx => h x (by simp [hx])
    by_cases hnil : s = []
    · subst hnil
      rw [cleanSegs, if_pos (Or.inl rfl), ih hrest]
      simp [List.filter_cons]
    · obtain ⟨hdot, hdd⟩ := (h s (by simp)).resolve_left hnil
      rw [cleanSegs, if_neg (by simp [hnil, hdot]), if_neg hdd, ih hrest]
      simp [List.filter_cons, hnil]

/-! ## Digit facts: zero-padded date components are clean segments -/

theorem mem_decDigitsAux (fuel : Nat) : ∀ n acc c, c ∈ decDigitsAux fuel n acc →
    c ∈ acc ∨ ∃ m, m < 10 ∧ c = digitChar m := by
  induction fuel with
  | zero => intro n acc c hc; rw [decDigitsAux] at hc; exact Or.inl hc
  | succ fuel ih =>
    intro n acc c hc
    rw [decDigitsAux] at hc
    by_cases hz : n = 0
    · rw [if_pos hz] at hc; exact Or.inl hc
    · rw [if_neg hz] at hc
      rcases ih _ _ c hc with hmem | hdig
      · rcases List.mem_cons.mp hmem with he | ha
        · exact Or.inr ⟨n % 10, Nat.mod_lt _ (by omega), he⟩
        · exact Or.inl ha
      · exact Or.inr hdig

theorem decDigitsAux_ne_nil (fuel : Nat) : ∀ n acc, acc ≠ [] →
    decDigitsAux fuel n acc ≠ [] := by
  induction fuel with
  | zero => intro n acc hacc; rw [decDigitsAux]; exact hacc
  | succ fuel ih =>
    intro n acc hacc
    rw [decDigitsAux]
    by_cases hz : n = 0
    · rw [if_pos hz]; exact hacc
    · rw [if_neg hz]; exact ih _ _ (by simp)

theorem mem_padInt (w n : Nat) (c : Char) (hc : c ∈ padInt w n) :
    ∃ m, m < 10 ∧ c = digitChar m := by
  rw [padInt] at hc
  rcases List.mem_append.mp hc with hrep | hds
  · exact ⟨0, by omega, (List.eq_of_mem_replicate hrep).symm ▸ rfl⟩
  · by_cases hz : n = 0
    · subst hz
      simp at hds
      exact ⟨0, by omega, by simpa using hds⟩
    · rw [if_neg hz] at hds
      rcases mem_decDigitsAux n n [] c hds with h | h
      · simp at h
      · exact h

theorem digitChar_props : ∀ m, m < 10 →
    digitChar m ≠ '/' ∧ digitChar m ≠ '.' := by decide

theorem padInt_ne_nil (w n : Nat) : padInt w n ≠ [] := by
  rw [padInt]
  intro hc
  rcases List.append_eq_nil.mp hc with ⟨-, hds⟩
  by_cases hz : n = 0
  · simp [hz] at hds
  · rw [if_neg hz] at hds
    cases n with
    | zero => exact hz rfl
    | succ k =>
      rw [decDigitsAux, if_neg hz] at hds
      exact decDigitsAux_ne_nil k _ _ (by simp) hds

theorem goodSeg_padInt (w n : Nat) : goodSeg (padInt w n) := by
  refine ⟨padInt_ne_nil w n, ?_, ?_, ?_⟩
  · intro hmem
    obtain ⟨m, hm, he⟩ := mem_padInt w n _ hmem
    exact (digitChar_props m hm).1 he.symm
  · intro he
    have : '.' ∈ padInt w n := by rw [he]; simp
    obtain ⟨m, hm, hc⟩ := mem_padInt w n _ this
    exact (digitChar_props m hm).2 hc.symm
  · intro he
    have : '.' ∈ padInt w n := by rw [he]; simp
    obtain ⟨m, hm, hc⟩ := mem_padInt w n _ this
    exact (digitChar_props m hm).2 hc.symm

/-! ## Clean names are clean segments -/

theorem allowedChar_props (c : Char) (h : allowedChar c = true) :
    c ≠ '/' ∧ c ≠ '.' := by
  constructor <;> intro he <;> subst he <;> simp [allowedChar] at h

theorem goodSeg_of_cleanName (s : String) (h : cleanName s) : goodSeg s.data := by
  obtain ⟨hne, hall⟩ := h
  have hdata : s.data ≠ [] := by
    intro hc; exact hne (strExt (by simpa using hc))
  have hmem : ∀ c ∈ s.data, allowedChar c = true := by
    simpa [List.all_eq_true] using hall
  refine ⟨hdata, ?_, ?_, ?_⟩
  · intro hc
    exact (allowedChar_props _ (hmem _ hc)).1 rfl
  · intro he
    have : '.' ∈ s.data := by rw [he]; simp
    exact (allowedChar_props _ (hmem _ this)).2 rfl
  · intro he
    have : '.' ∈ s.data := by rw [he]; simp
    exact (allowedChar_props _ (hmem _ this)).2 rfl

/-! ## The main `path.Clean` identity

On a path whose `/`-separated segments are all either empty or clean
(no `.`/`..`), `path.Clean` only collapses the empty segments. -/

theorem pathClean_of_good (s0 : List Char) (ss : List (List Char))
    (h0 : goodSeg s0) (hss : ∀ s ∈ ss, s = [] ∨ goodSeg s) :
    pathClean (String.mk (joinSegs (s0 :: ss))) =
      String.mk (joinSegs (s0 :: ss.filter (· ≠ []))) := by
  obtain ⟨hne, hslash, hdot, hdd⟩ := h0
  have hjoin_ne : joinSegs (s0 :: ss) ≠ [] := joinSegs_ne_nil s0 ss hne
  rw [pathClean, if_neg (mk_ne_empty hjoin_ne)]
  have hdata : (String.mk (joinSegs (s0 :: ss))).data = joinSegs (s0 :: ss) := rfl
  have hroot : isRooted (joinSegs (s0 :: ss)) = false := by
    obtain ⟨c, cs0, hc⟩ : ∃ c cs0, s0 = c :: cs0 := by
      cases s0 with
      | nil => exact absurd rfl hne
      | cons c cs0 => exact ⟨c, cs0, rfl⟩
    have hcne : c ≠ '/' := fun he => hslash (by simp [hc, he])
    cases ss with
    | nil => simp [joinSegs, hc, isRooted, hcne]
    | cons t ts => simp [joinSegs_cons_cons, hc, isRooted, hcne]
  have hsplit : splitSlash (joinSegs (s0 :: ss)) = s0 :: ss := by
    refine splitSlash_join _ (by simp) ?_
    intro s hs
    rcases List.mem_cons.mp hs with he | hm
    · exact he ▸ hslash
    · rcases hss s hm with he | hg
      · simp [he]
      · exact hg.2.1
  have hclean : cleanSegs false
      (splitSlash (joinSegs (s0 :: ss))) [] = s0 :: ss.filter (· ≠ []) := by
    rw [hsplit, cleanSegs_all_good _ _ ?_ []]
    · simp [List.filter_cons, hne]
    · intro s hs
      rcases List.mem_cons.mp hs with he | hm
      · exact Or.inr ⟨he ▸ hdot, he ▸ hdd⟩
      · rcases hss s hm with he | hg
        · exact Or.inl he
        · exact Or.inr ⟨hg.2.2.1, hg.2.2.2⟩
  simp only [hdata, hroot, hclean]
  rw [if_neg (joinSegs_ne_nil s0 _ hne)]
  simp

theorem joinSegs_splitSlash (l : List Char) : joinSegs (splitSlash l) = l := by
  induction l with
  | nil => rfl
  | cons c cs ih =>
    obtain ⟨s, rest, hs⟩ : ∃ s rest, splitSlash cs = s :: rest := by
      cases h : splitSlash cs with
      | nil => exact absurd h (splitSlash_ne_nil cs)
      | cons s rest => exact ⟨s, rest, rfl⟩
    rw [splitSlash]
    by_cases hc : c = '/'
    · rw [if_pos hc, hs, joinSegs_cons_cons, ← hs, ih, hc]
      rfl
    · rw [if_neg hc, hs]
      show joinSegs ((c :: s) :: rest) = c :: cs
      rw [hs] at ih
      cases rest with
      | nil =>
        simp only [joinSegs] at ih ⊢
        rw [ih]
      | cons t ts =>
        rw [joinSegs_cons_cons] at ih
        rw [joinSegs_cons_cons, List.cons_append, ih]

/-! ## The bundle key namespace as segment lists -/

theorem dirPath_data (b : Builder) :
    b.dirPath.data = joinSegs (dirSegs b) ++ ['/'] := by
  have hf : "failures/".data = "failures".data ++ ['/'] := by decide
  have hs : "/".data = ['/'] := by decide
  simp only [Builder.dirPath, formatDate, String.data_append, dirSegs, tailSegs,
    joinSegs_cons_cons, joinSegs, hf, hs]
  simp [List.append_assoc]

theorem dirPath_ne_empty (b : Builder) : b.dirPath ≠ "" := by
  apply ne_empty_of_data_ne_nil
  rw [dirPath_data]
  simp

theorem tailSegs_good (b : Builder) (hp : cleanName b.project) (he : cleanName b.env)
    (hid : cleanName b.failureID) : ∀ s ∈ tailSegs b, goodSeg s := by
  intro s hsm
  simp only [tailSegs, List.mem_cons, List.mem_singleton] at hsm
  rcases hsm with h | h | h | h | h | h | h
  · exact h ▸ goodSeg_of_cleanName _ hp
  · exact h ▸ goodSeg_of_cleanName _ he
  · exact h ▸ goodSeg_padInt 4 b.date.year
  · exact h ▸ goodSeg_padInt 2 b.date.month
  · exact h ▸ goodSeg_padInt 2 b.date.day
  · exact h ▸ goodSeg_of_cleanName _ hid
  · simp at h

/-- `path.Join(prefixString, name)` for a clean-segment `name` is plain
concatenation: the double slash collapses and nothing else changes. -/
theorem key_join (b : Builder) (hp : cleanName b.project) (he : cleanName b.env)
    (hid : cleanName b.failureID) (name : String) (hname : goodSeg name.data) :
    pathJoin [b.dirPath, name] = b.dirPath ++ name := by
  have hname_ne : name ≠ "" := ne_empty_of_data_ne_nil hname.1
  have hfil : ([b.dirPath, name].filter (fun s => s ≠ "")) = [b.dirPath, name] := by
    simp [List.filter_cons, dirPath_ne_empty b, hname_ne]
  rw [pathJoin]
  simp only [hfil]
  rw [if_neg (by simp)]
  have hjoin2 : joinNonEmpty [b.dirPath, name] = b.dirPath ++ "/" ++ name := by
    simp [joinNonEmpty, String.append_assoc]
  rw [hjoin2]
  have harg : b.dirPath ++ "/" ++ name =
      String.mk (joinSegs ("failures".data :: (tailSegs b ++ [[], name.data]))) := by
    apply strExt
    show (b.dirPath ++ "/" ++ name).data = joinSegs (dirSegs b ++ [[], name.data])
    rw [String.data_append, String.data_append, dirPath_data,
      joinSegs_append (dirSegs b) [[], name.data] (by simp [dirSegs]) (by simp)]
    have h2 : joinSegs [[], name.data] = '/' :: name.data := rfl
    have hsd : "/".data = ['/'] := by decide
    rw [h2, hsd]
    simp
  rw [harg, pathClean_of_good "failures".data _ (by decide) ?_]
  · apply strExt
    have hfil2 : (tailSegs b ++ [[], name.data]).filter (· ≠ []) =
        tailSegs b ++ [name.data] := by
      rw [List.filter_append]
      have h1 : (tailSegs b).filter (· ≠ []) = tailSegs b :=
        List.filter_eq_self.mpr (fun s hsm => by
          simpa using (tailSegs_good b hp he hid s hsm).1)
      have h2 : ([[], name.data] : List (List Char)).filter (· ≠ []) = [name.data] := by
        simp [List.filter_cons, hname.1]
      rw [h1, h2]
    rw [hfil2]
    show joinSegs (dirSegs b ++ [name.data]) = (b.dirPath ++ name).data
    rw [String.data_append, dirPath_data,
      joinSegs_append (dirSegs b) [name.data] (by simp [dirSegs]) (by simp)]
    simp [joinSegs]
  · intro s hsm
    rcases List.mem_append.mp hsm with h | h
    · exact Or.inr (tailSegs_good b hp he hid s h)
    · rcases List.mem_cons.mp h with h1 | h1
      · exact Or.inl h1
      · simp only [List.mem_singleton] at h1
        exact Or.inr (h1 ▸ hname)

/-- `Builder.File` for a filename whose own `/`-separated segments are all
clean is plain concatenation under the `files/` subdirectory. -/
theorem file_join (b : Builder) (hp : cleanName b.project) (he : cleanName b.env)
    (hid : cleanName b.failureID) (f : String)
    (hf : ∀ s ∈ splitSlash f.data, goodSeg s) :
    b.file f = b.dirPath ++ "files/" ++ f := by
  have hfd_ne : f.data ≠ [] := by
    intro h0
    have hg : goodSeg [] := hf [] (by rw [h0]; simp [splitSlash])
    exact hg.1 rfl
  have hf_ne : f ≠ "" := ne_empty_of_data_ne_nil hfd_ne
  have hsplit_ne : splitSlash f.data ≠ [] := splitSlash_ne_nil f.data
  have hfil : ([b.dirPath, "files", f].filter (fun s => s ≠ "")) =
      [b.dirPath, "files", f] := by
    simp [List.filter_cons, dirPath_ne_empty b, hf_ne]
  rw [Builder.file, pathJoin]
  simp only [hfil]
  rw [if_neg (by simp)]
  have hjoin3 : joinNonEmpty [b.dirPath, "files", f] =
      b.dirPath ++ "/" ++ ("files" ++ "/" ++ f) := by
    simp [joinNonEmpty]
  rw [hjoin3]
  have harg : b.dirPath ++ "/" ++ ("files" ++ "/" ++ f) =
      String.mk (joinSegs ("failures".data ::
        (tailSegs b ++ [[], "files".data] ++ splitSlash f.data))) := by
    apply strExt
    show _ = joinSegs (dirSegs b ++ ([[], "files".data] ++ splitSlash f.data))
    rw [joinSegs_append (dirSegs b) _ (by simp [dirSegs]) (by simp),
      joinSegs_append [[], "files".data] _ (by simp) hsplit_ne,
      joinSegs_splitSlash]
    rw [String.data_append, String.data_append, String.data_append,
      String.data_append, dirPath_data]
    have hsd : "/".data = ['/'] := by decide
    rw [hsd]
    simp [joinSegs]
  rw [List.append_assoc] at harg
  rw [harg, pathClean_of_good "failures".data _ (by decide) ?_]
  · apply strExt
    have h1 : (tailSegs b).filter (· ≠ []) = tailSegs b :=
      List.filter_eq_self.mpr (fun s hsm => by
        simpa using (tailSegs_good b hp he hid s hsm).1)
    have h2 : ([[], "files".data] : List (List Char)).filter (· ≠ []) =
        ["files".data] := by decide
    have h3 : (splitSlash f.data).filter (· ≠ []) = splitSlash f.data :=
      List.filter_eq_self.mpr (fun s hsm => by simpa using (hf s hsm).1)
    rw [List.filter_append, List.filter_append, h1, h2, h3]
    show joinSegs (dirSegs b ++ (["files".data] ++ splitSlash f.data)) = _
    rw [joinSegs_append (dirSegs b) _ (by simp [dirSegs]) (by simp),
      joinSegs_append ["files".data] _ (by simp) hsplit_ne,
      joinSegs_splitSlash]
    rw [String.data_append, String.data_append, dirPath_data]
    have hfd : "files/".data = "files".data ++ ['/'] := by decide
    rw [hfd]
    simp [joinSegs]
  · intro s hsm
    rcases List.mem_append.mp hsm with h | h
    · exact Or.inr (tailSegs_good b hp he hid s h)
    · rcases List.mem_append.mp h with h1 | h1
      · rcases List.mem_cons.mp h1 with h2 | h2
        · exact Or.inl h2
        · simp only [List.mem_singleton] at h2
          exact Or.inr (h2 ▸ (by decide : goodSeg "files".data))
      · exact Or.inr (hf s h1)

/-! ## Injectivity of the key namespace -/

theorem splitSlash_join_append (ss : List (List Char)) (r : List Char)
    (hne : ss ≠ []) (h : ∀ s ∈ ss, '/' ∉ s) :
    splitSlash (joinSegs ss ++ '/' :: r) = ss ++ splitSlash r := by
  induction ss with
  | nil => exact absurd rfl hne
  | cons s rest ih =>
    cases rest with
    | nil =>
      show splitSlash (s ++ '/' :: r) = [s] ++ splitSlash r
      rw [splitSlash_append s r (h s (by simp))]
      rfl
    | cons t ts =>
      rw [joinSegs_cons_cons, List.append_assoc, List.cons_append]
      rw [splitSlash_append s _ (h s (by simp))]
      rw [ih (by simp) (fun x hx => h x (by simp [hx]))]
      rfl

theorem dirSegs_len (b : Builder) : (dirSegs b).length = 7 := by
  simp [dirSegs, tailSegs]

theorem dirSegs_noSlash (b : Builder) (hp : cleanName b.project)
    (he : cleanName b.env) (hid : cleanName b.failureID) :
    ∀ s ∈ dirSegs b, '/' ∉ s := by
  intro s hsm
  rcases List.mem_cons.mp hsm with h | h
  · exact h ▸ (by decide : '/' ∉ "failures".data)
  · exact (tailSegs_good b hp he hid s h).2.1

theorem failureID_eq_of_dirSegs {b1 b2 : Builder}
    (h : dirSegs b1 = dirSegs b2) : b1.failureID = b2.failureID := by
  simp only [dirSegs, tailSegs, List.cons.injEq] at h
  exact strExt h.2.2.2.2.2.2.1

/-- Appending slash-free suffix segments to two bundle namespaces can only
give the same character list when the namespaces agree segment by
segment. -/
theorem dirSegs_eq_of_data_eq {b1 b2 : Builder}
    (hp1 : cleanName b1.project) (he1 : cleanName b1.env) (hid1 : cleanName b1.failureID)
    (hp2 : cleanName b2.project) (he2 : cleanName b2.env) (hid2 : cleanName b2.failureID)
    (r1 r2 : List Char)
    (h : b1.dirPath.data ++ r1 = b2.dirPath.data ++ r2) : dirSegs b1 = dirSegs b2 := by
  rw [dirPath_data, dirPath_data, List.append_assoc, List.append_assoc] at h
  have h' : splitSlash (joinSegs (dirSegs b1) ++ '/' :: r1) =
      splitSlash (joinSegs (dirSegs b2) ++ '/' :: r2) := by
    rw [List.singleton_append, List.singleton_append] at h
    exact congrArg splitSlash h
  rw [splitSlash_join_append _ _ (by simp [dirSegs]) (dirSegs_noSlash b1 hp1 he1 hid1),
    splitSlash_join_append _ _ (by simp [dirSegs]) (dirSegs_noSlash b2 hp2 he2 hid2)]
    at h'
  exact (List.append_inj h' (by rw [dirSegs_len, dirSegs_len])).1

/-- Distinct failure IDs ⇒ neither bundle's key namespace is a string
prefix of the other's. -/
theorem dir_not_leads (b1 b2 : Builder)
    (hp1 : cleanName b1.project) (he1 : cleanName b1.env) (hid1 : cleanName b1.failureID)
    (hp2 : cleanName b2.project) (he2 : cleanName b2.env) (hid2 : cleanName b2.failureID)
    (hne : b1.failureID ≠ b2.failureID) : ¬ StrLeads b1.dirPath b2.dirPath := by
  rintro ⟨t, ht⟩
  have hdata : b1.dirPath.data ++ t.data = b2.dirPath.data ++ [] := by
    rw [List.append_nil]
    simpa [String.data_append] using congrArg String.data ht
  exact hne (failureID_eq_of_dirSegs
    (dirSegs_eq_of_data_eq hp1 he1 hid1 hp2 he2 hid2 _ _ hdata))

/-- Distinct failure IDs ⇒ no fixed-slot key of one bundle equals a
fixed-slot key of the other. -/
theorem key_ne_of_id_ne (b1 b2 : Builder)
    (hp1 : cleanName b1.project) (he1 : cleanName b1.env) (hid1 : cleanName b1.failureID)
    (hp2 : cleanName b2.project) (he2 : cleanName b2.env) (hid2 : cleanName b2.failureID)
    (hne : b1.failureID ≠ b2.failureID) (n1 n2 : String) :
    b1.dirPath ++ n1 ≠ b2.dirPath ++ n2 := by
  intro he
  have hdata : b1.dirPath.data ++ n1.data = b2.dirPath.data ++ n2.data := by
    simpa [String.data_append] using congrArg String.data he
  exact hne (failureID_eq_of_dirSegs
    (dirSegs_eq_of_data_eq hp1 he1 hid1 hp2 he2 hid2 _ _ hdata))

/-! ## Fixed-slot keys as plain concatenations -/

theorem envelope_eq (b : Builder) (hp : cleanName b.project) (he : cleanName b.env)
    (hid : cleanName b.failureID) : b.envelope = b.dirPath ++ "envelope.json" :=
  key_join b hp he hid "envelope.json" (by decide)

theorem requestRaw_eq (b : Builder) (hp : cleanName b.project) (he : cleanName b.env)
    (hid : cleanName b.failureID) : b.requestRaw = b.dirPath ++ "request.raw" :=
  key_join b hp he hid "request.raw" (by decide)

theorem requestHeaders_eq (b : Builder) (hp : cleanName b.project) (he : cleanName b.env)
    (hid : cleanName b.failureID) :
    b.requestHeaders = b.dirPath ++ "request.headers.json" :=
  key_join b hp he hid "request.headers.json" (by decide)

theorem responseRaw_eq (b : Builder) (hp : cleanName b.project) (he : cleanName b.env)
    (hid : cleanName b.failureID) : b.responseRaw = b.dirPath ++ "response.raw" :=
  key_join b hp he hid "response.raw" (by decide)

theorem checksums_eq (b : Builder) (hp : cleanName b.project) (he : cleanName b.env)
    (hid : cleanName b.failureID) : b.checksums = b.dirPath ++ "checksums.json" :=
  key_join b hp he hid "checksums.json" (by decide)

theorem requiredKeys_eq (b : Builder) (hp : cleanName b.project) (he : cleanName b.env)
    (hid : cleanName b.failureID) :
    b.requiredKeys = [b.dirPath ++ "envelope.json", b.dirPath ++ "request.raw",
      b.dirPath ++ "request.headers.json", b.dirPath ++ "checksums.json"] := by
  rw [Builder.requiredKeys, envelope_eq b hp he hid, requestRaw_eq b hp he hid,
    requestHeaders_eq b hp he hid, checksums_eq b hp he hid]

theorem allKeys_nil_eq (b : Builder) (hp : cleanName b.project) (he : cleanName b.env)
    (hid : cleanName b.failureID) :
    b.allKeys [] = [b.dirPath ++ "envelope.json", b.dirPath ++ "request.raw",
      b.dirPath ++ "request.headers.json", b.dirPath ++ "checksums.json",
      b.dirPath ++ "response.raw"] := by
  rw [Builder.allKeys, requiredKeys_eq b hp he hid, responseRaw_eq b hp he hid]
  rfl

/-! ## Claim theorems -/

/-- C3: for every valid (project, environment, bundleID, date), the derived
key namespace is `failures/` + project + `/` + environment + `/` +
zero-padded year/month/day + `/` + bundleID + `/`, and the required-slot
keys are that namespace concatenated with `envelope.json`, `request.raw`,
`request.headers.json` and `checksums.json`; in particular
(`myapp`, `prod`, `abc-123`, 2024-03-15) yields the namespace
`failures/myapp/prod/2024/03/15/abc-123/` and the envelope key
`failures/myapp/prod/2024/03/15/abc-123/envelope.json`. -/
theorem C3_key_derivation (p e id : String) (d : GoDate)
    (hp : cleanName p) (he : cleanName e) (hid : cleanName id) :
    (NewBuilder p e id d).dirPath =
      "failures/" ++ p ++ "/" ++ e ++ "/" ++ String.mk (padInt 4 d.year) ++ "/" ++
        String.mk (padInt 2 d.month) ++ "/" ++ String.mk (padInt 2 d.day) ++ "/" ++
        id ++ "/" ∧
    (NewBuilder p e id d).requiredKeys =
      [(NewBuilder p e id d).dirPath ++ "envelope.json",
       (NewBuilder p e id d).dirPath ++ "request.raw",
       (NewBuilder p e id d).dirPath ++ "request.headers.json",
       (NewBuilder p e id d).dirPath ++ "checksums.json"] ∧
    (NewBuilder "myapp" "prod" "abc-123" ⟨2024, 3, 15⟩).dirPath =
      "failures/myapp/prod/2024/03/15/abc-123/" ∧
    (NewBuilder "myapp" "prod" "abc-123" ⟨2024, 3, 15⟩).envelope =
      "failures/myapp/prod/2024/03/15/abc-123/envelope.json" := by
  refine ⟨?_, requiredKeys_eq _ hp he hid, by decide, by decide⟩
  apply strExt
  simp [NewBuilder, Builder.dirPath, formatDate, String.data_append]

/-- C3 witness: the theorem applied at the spec's example identity. -/
theorem C3_key_derivation_witness :
    (NewBuilder "myapp" "prod" "abc-123" ⟨2024, 3, 15⟩).dirPath =
      "failures/myapp/prod/2024/03/15/abc-123/" ∧
    (NewBuilder "myapp" "prod" "abc-123" ⟨2024, 3, 15⟩).envelope =
      "failures/myapp/prod/2024/03/15/abc-123/envelope.json" := by
  have h := C3_key_derivation "myapp" "prod" "abc-123" ⟨2024, 3, 15⟩
    (by decide) (by decide) (by decide)
  exact ⟨h.2.2.1, h.2.2.2⟩

/-- Every key of a bundle's key set — with every attachment filename's
`/`-separated segments clean — lives under the bundle's namespace: it is
the namespace string followed by some suffix. -/
theorem allKeys_shape (b : Builder) (hp : cleanName b.project) (he : cleanName b.env)
    (hid : cleanName b.failureID) (fns : List String)
    (hfns : ∀ f ∈ fns, ∀ s ∈ splitSlash f.data, goodSeg s) :
    ∀ k ∈ b.allKeys fns, ∃ n, k = b.dirPath ++ n := by
  intro k hk
  rw [Builder.allKeys, requiredKeys_eq b hp he hid, responseRaw_eq b hp he hid,
    List.mem_append, List.mem_append] at hk
  rcases hk with (hfix | hresp) | hfile
  · rw [List.mem_cons] at hfix
    rcases hfix with h' | hfix
    · exact ⟨"envelope.json", h'⟩
    rw [List.mem_cons] at hfix
    rcases hfix with h' | hfix
    · exact ⟨"request.raw", h'⟩
    rw [List.mem_cons] at hfix
    rcases hfix with h' | hfix
    · exact ⟨"request.headers.json", h'⟩
    rw [List.mem_cons] at hfix
    rcases hfix with h' | hfix
    · exact ⟨"checksums.json", h'⟩
    · exact absurd hfix (List.not_mem_nil k)
  · rw [List.mem_singleton] at hresp
    exact ⟨"response.raw", hresp⟩
  · rw [List.mem_map] at hfile
    obtain ⟨f, hf, hfe⟩ := hfile
    refine ⟨"files/" ++ f, ?_⟩
    rw [← hfe, file_join b hp he hid f (hfns f hf)]
    apply strExt
    simp [String.data_append, List.append_assoc]

/-- C4 counterexample: over the full KeySet, derived keys of distinct
bundleIDs can collide.  `aaa` and `bbb` are valid, distinct bundleIDs,
yet `aaa`'s attachment key for a filename made of `..` segments — which
no layer rejects, since validation only requires a non-empty filename —
is rewritten by `path.Join`'s cleaning to escape `aaa`'s namespace and
equals `bbb`'s envelope key exactly. -/
theorem C4_counterexample :
    cleanName "aaa" ∧ cleanName "bbb" ∧ "aaa" ≠ "bbb" ∧
    (NewBuilder "myapp" "prod" "aaa" ⟨2024, 3, 15⟩).file
        "../../../../../../../../failures/myapp/prod/2024/03/15/bbb/envelope.json" ∈
      (NewBuilder "myapp" "prod" "aaa" ⟨2024, 3, 15⟩).allKeys
        ["../../../../../../../../failures/myapp/prod/2024/03/15/bbb/envelope.json"] ∧
    (NewBuilder "myapp" "prod" "bbb" ⟨2024, 3, 15⟩).envelope ∈
      (NewBuilder "myapp" "prod" "bbb" ⟨2024, 3, 15⟩).allKeys [] ∧
    (NewBuilder "myapp" "prod" "aaa" ⟨2024, 3, 15⟩).file
        "../../../../../../../../failures/myapp/prod/2024/03/15/bbb/envelope.json" =
      (NewBuilder "myapp" "prod" "bbb" ⟨2024, 3, 15⟩).envelope := by
  exact ⟨by decide, by decide, by decide, by decide, by decide, by decide⟩

/-- C4 as amended: key derivation is a pure function of the identity
fields (builders with equal fields derive equal key sets), and for two
valid identities with distinct bundleIDs the derived namespaces never
overlap — neither is a string prefix of the other — and no derived keys
collide, provided every attachment filename's `/`-separated segments are
non-empty and none is `.` or `..`; without that proviso `path.Join`'s
cleaning lets a `..` filename escape its bundle's namespace and collide
with another bundle's key. -/
theorem C4_derivation_injective (p1 e1 id1 p2 e2 id2 : String) (d1 d2 : GoDate)
    (hp1 : cleanName p1) (he1 : cleanName e1) (hid1 : cleanName id1)
    (hp2 : cleanName p2) (he2 : cleanName e2) (hid2 : cleanName id2)
    (hne : id1 ≠ id2) (fns1 fns2 : List String)
    (hf1 : ∀ f ∈ fns1, ∀ s ∈ splitSlash f.data, goodSeg s)
    (hf2 : ∀ f ∈ fns2, ∀ s ∈ splitSlash f.data, goodSeg s) :
    (∀ b b' : Builder, b.project = b'.project → b.env = b'.env →
      b.failureID = b'.failureID → b.date = b'.date →
      ∀ fns, b.allKeys fns = b'.allKeys fns) ∧
    ¬ StrLeads (NewBuilder p1 e1 id1 d1).dirPath (NewBuilder p2 e2 id2 d2).dirPath ∧
    ¬ StrLeads (NewBuilder p2 e2 id2 d2).dirPath (NewBuilder p1 e1 id1 d1).dirPath ∧
    ∀ k1 ∈ (NewBuilder p1 e1 id1 d1).allKeys fns1,
      ∀ k2 ∈ (NewBuilder p2 e2 id2 d2).allKeys fns2, k1 ≠ k2 := by
  refine ⟨?_, ?_, ?_, ?_⟩
  · rintro ⟨pa, ea, ia, da⟩ ⟨pb, eb, ib, db⟩ h1 h2 h3 h4 fns
    cases h1; cases h2; cases h3; cases h4; rfl
  · exact dir_not_leads _ _ hp1 he1 hid1 hp2 he2 hid2 hne
  · exact dir_not_leads _ _ hp2 he2 hid2 hp1 he1 hid1 (Ne.symm hne)
  · intro k1 hk1 k2 hk2
    obtain ⟨n1, hn1⟩ := allKeys_shape _ hp1 he1 hid1 fns1 hf1 k1 hk1
    obtain ⟨n2, hn2⟩ := allKeys_shape _ hp2 he2 hid2 fns2 hf2 k2 hk2
    rw [hn1, hn2]
    exact key_ne_of_id_ne _ _ hp1 he1 hid1 hp2 he2 hid2 hne n1 n2

/-- C4 witness: applied at two identities differing only in the bundleID,
one of them carrying a clean attachment filename; their namespaces do not
overlap in either direction, and the first bundle's attachment key
differs from the second bundle's envelope key. -/
theorem C4_derivation_injective_witness :
    ¬ StrLeads (NewBuilder "myapp" "prod" "abc-123" ⟨2024, 3, 15⟩).dirPath
        (NewBuilder "myapp" "prod" "abc-1234" ⟨2024, 3, 15⟩).dirPath ∧
    ¬ StrLeads (NewBuilder "myapp" "prod" "abc-1234" ⟨2024, 3, 15⟩).dirPath
        (NewBuilder "myapp" "prod" "abc-123" ⟨2024, 3, 15⟩).dirPath ∧
    (NewBuilder "myapp" "prod" "abc-123" ⟨2024, 3, 15⟩).file "photo.jpg" ≠
      (NewBuilder "myapp" "prod" "abc-1234" ⟨2024, 3, 15⟩).envelope := by
  have h := C4_derivation_injective "myapp" "prod" "abc-123" "myapp" "prod" "abc-1234"
    ⟨2024, 3, 15⟩ ⟨2024, 3, 15⟩ (by decide) (by decide) (by decide) (by decide)
    (by decide) (by decide) (by decide) ["photo.jpg"] [] (by decide) (by decide)
  exact ⟨h.2.1, h.2.2.1, h.2.2.2 _ (by decide) _ (by decide)⟩

/-- C5 counterexample: filenames are not used verbatim.  For the identity
(`myapp`, `prod`, `abc-123`, 2024-03-15) and the filename `../secret`, Go's
`path.Join` rewrites the `..` segment: the derived key escapes the
`files/` subdirectory and differs from the verbatim concatenation the
claim asserts. -/
theorem C5_counterexample :
    (NewBuilder "myapp" "prod" "abc-123" ⟨2024, 3, 15⟩).file "../secret" =
      "failures/myapp/prod/2024/03/15/abc-123/secret" ∧
    (NewBuilder "myapp" "prod" "abc-123" ⟨2024, 3, 15⟩).file "../secret" ≠
      (NewBuilder "myapp" "prod" "abc-123" ⟨2024, 3, 15⟩).dirPath ++ "files/" ++
        "../secret" := by
  constructor <;> decide

/-- C5 as amended: the attachment key is `path.Join(prefix, "files",
filename)`, which cleans `.`, `..` and empty segments; whenever every
`/`-separated segment of the filename is clean the key is exactly the
verbatim `prefix + "files/" + filename`, and duplicate filenames always
derive duplicate (overwriting) keys. -/
theorem C5_file_keys_cleaned (p e id f : String) (d : GoDate)
    (hp : cleanName p) (he : cleanName e) (hid : cleanName id)
    (hf : ∀ s ∈ splitSlash f.data, goodSeg s) :
    (NewBuilder p e id d).file f = (NewBuilder p e id d).dirPath ++ "files/" ++ f ∧
    ∀ f' : String, f' = f →
      (NewBuilder p e id d).file f' = (NewBuilder p e id d).file f := by
  refine ⟨file_join _ hp he hid f hf, ?_⟩
  intro f' hf'
  rw [hf']

/-- C5 witness: a clean filename keeps the verbatim `files/` key. -/
theorem C5_file_keys_cleaned_witness :
    (NewBuilder "myapp" "prod" "abc-123" ⟨2024, 3, 15⟩).file "photo.jpg" =
      (NewBuilder "myapp" "prod" "abc-123" ⟨2024, 3, 15⟩).dirPath ++ "files/" ++
        "photo.jpg" :=
  (C5_file_keys_cleaned "myapp" "prod" "abc-123" "photo.jpg" ⟨2024, 3, 15⟩
    (by decide) (by decide) (by decide) (by decide)).1

/-! ## Completion-verifier lemmas -/

/-- `VerifyObjectsExist` never reports an error (because `ObjectExists`
never does) and collects exactly the keys whose `HeadObject` call did not
succeed — transport failures included. -/
theorem VerifyObjectsExist_eq (head : String → HeadResult) (keys : List String) :
    VerifyObjectsExist head keys =
      .ok (keys.filter (fun k => head k ≠ .found)) := by
  induction keys with
  | nil => rfl
  | cons k rest ih =>
    rw [VerifyObjectsExist]
    cases hk : head k <;>
      simp [ObjectExists, hk, ih, List.filter_cons]

/-- `UploadComplete` on a claim that passes validation, written as one case
split on whether any claimed key failed its existence probe. -/
theorem UploadComplete_eq (deps : CompleteDeps) (now : GoDate)
    (req : UploadCompleteRequest)
    (hvalid : ValidateUploadCompleteRequest req = []) :
    UploadComplete deps now req =
      if (req.uploadedKeys.filter (fun k => deps.head k ≠ .found)).length > 0 then
        ⟨400, .failed ⟨"Some objects were not found in S3", "missing_objects", ""⟩,
          req.uploadedKeys.filter (fun k => deps.head k ≠ .found), [], false⟩
      else
        ⟨200, .ok "ok", [],
          (if deps.emailerPresent then
            [{ failureID := req.failureID, project := req.project, env := req.env,
               envelopeURL :=
                 match deps.presignGet (NewBuilder req.project req.env req.failureID
                     now).envelope with
                 | some url => url
                 | none => "" : FailureNotification }]
          else []),
          deps.emailerPresent && !deps.emailSendOk⟩ := by
  rw [UploadComplete, if_neg (by simp [hvalid]), VerifyObjectsExist_eq]

/-! ## Ticket-issuer lemmas -/

theorem presignFiles_some (p : String → String → Option String) (kb : Builder)
    (fs : List FileInfo) (us : List PresignedUpload)
    (h : presignFiles p kb fs = some us) :
    (∀ f ∈ fs, ∃ v, p (kb.file f.filename) (ctOrDefault f.contentType) = some v) ∧
      us.length = fs.length := by
  induction fs generalizing us with
  | nil =>
    rw [presignFiles] at h
    cases h
    exact ⟨by simp, rfl⟩
  | cons f rest ih =>
    rw [presignFiles] at h
    cases hq : p (kb.file f.filename) (ctOrDefault f.contentType) with
    | none => rw [hq] at h; cases h
    | some v =>
      rw [hq] at h
      cases hr : presignFiles p kb rest with
      | none => rw [hr] at h; cases h
      | some us' =>
        rw [hr] at h
        cases h
        obtain ⟨hall, hlen⟩ := ih us' hr
        refine ⟨?_, by simp [hlen]⟩
        intro g hg
        rcases List.mem_cons.mp hg with hgf | hgr
        · exact ⟨v, hgf ▸ hq⟩
        · exact hall g hgr

set_option maxHeartbeats 800000 in
/-- A successful `generatePresignedURLs` presigned every slot and carries
one file entry per declared file. -/
theorem gen_some_spec (p : String → String → Option String) (kb : Builder)
    (req : UploadTicketRequest) (u : UploadURLs)
    (h : generatePresignedURLs p kb req = some u) :
    (∀ k ct, (k, ct) ∈ slotRequests kb req → ∃ v, p k ct = some v) ∧
      u.files.length = req.request.files.length := by
  simp only [generatePresignedURLs, Option.bind_eq_bind', Option.bind_eq_some,
    Option.pure_def, Option.some.injEq] at h
  obtain ⟨u1, h1, u2, h2, u3, h3, u4, h4, u5, h5, fus, h6, hu⟩ := h
  subst hu
  obtain ⟨hfiles, hlen⟩ := presignFiles_some p kb req.request.files fus h6
  refine ⟨?_, hlen⟩
  intro k ct hpr
  rw [slotRequests, List.mem_append] at hpr
  rcases hpr with hfix | hfile
  · rw [List.mem_cons, Prod.mk.injEq] at hfix
    rcases hfix with ⟨hk, hct⟩ | hfix
    · subst hk; subst hct; exact ⟨u1, h1⟩
    rw [List.mem_cons, Prod.mk.injEq] at hfix
    rcases hfix with ⟨hk, hct⟩ | hfix
    · subst hk; subst hct; exact ⟨u2, h2⟩
    rw [List.mem_cons, Prod.mk.injEq] at hfix
    rcases hfix with ⟨hk, hct⟩ | hfix
    · subst hk; subst hct; exact ⟨u3, h3⟩
    rw [List.mem_cons, Prod.mk.injEq] at hfix
    rcases hfix with ⟨hk, hct⟩ | hfix
    · subst hk; subst hct; exact ⟨u4, h4⟩
    rw [List.mem_cons, Prod.mk.injEq] at hfix
    rcases hfix with ⟨hk, hct⟩ | hfix
    · subst hk; subst hct; exact ⟨u5, h5⟩
    · exact absurd hfix (List.not_mem_nil (k, ct))
  · rw [List.mem_map] at hfile
    obtain ⟨f, hf, he⟩ := hfile
    simp only [Prod.mk.injEq] at he
    obtain ⟨hk, hct⟩ := he
    subst hk; subst hct
    exact hfiles f hf

/-- C1 counterexample: the missing-objects failure response names no keys.
With every key absent, two claims whose absent-key sets differ (`keyA`
versus `keyB`) receive literally identical response bodies — the body is
the fixed message with empty details, and the absent key's name appears
nowhere in it — so the set of keys reported in the failure response is
empty, not the set of absent claimed keys. -/
theorem C1_counterexample :
    UploadComplete ⟨noneFoundHead, okGet, true, true⟩ sampleDate
        ⟨"abc-123", "myapp", "prod", ["keyA"], []⟩ =
      ⟨400, .failed ⟨"Some objects were not found in S3", "missing_objects", ""⟩,
        ["keyA"], [], false⟩ ∧
    (UploadComplete ⟨noneFoundHead, okGet, true, true⟩ sampleDate
        ⟨"abc-123", "myapp", "prod", ["keyA"], []⟩).body =
      (UploadComplete ⟨noneFoundHead, okGet, true, true⟩ sampleDate
        ⟨"abc-456", "myapp", "prod", ["keyB"], []⟩).body ∧
    ¬ ("keyA".data <:+: "Some objects were not found in S3".data) := by
  exact ⟨by decide, by decide, by decide⟩

/-- C1 as amended: when the existence checks answer cleanly and at least
one claimed key is absent, `completeBundle` fails with the
`missing_objects` condition and internally collects and logs the full
list of absent keys — exactly the claimed keys not in storage — but the
HTTP response body itself carries only a generic message and names none
of them. -/
theorem C1_missing_enumeration (deps : CompleteDeps) (now : GoDate)
    (req : UploadCompleteRequest)
    (hvalid : ValidateUploadCompleteRequest req = [])
    (hclean : ∀ k ∈ req.uploadedKeys, deps.head k ≠ .transportErr)
    (hmiss : ∃ k ∈ req.uploadedKeys, deps.head k = .notFound) :
    (UploadComplete deps now req).status = 400 ∧
    (UploadComplete deps now req).body =
      .failed ⟨"Some objects were not found in S3", "missing_objects", ""⟩ ∧
    (UploadComplete deps now req).loggedMissing =
      req.uploadedKeys.filter (fun k => deps.head k = .notFound) := by
  have hfe : req.uploadedKeys.filter (fun k => deps.head k ≠ .found) =
      req.uploadedKeys.filter (fun k => deps.head k = .notFound) := by
    apply List.filter_congr
    intro k hk
    cases hres : deps.head k
    · simp [hres]
    · simp [hres]
    · exact absurd hres (hclean k hk)
  have hlen : (req.uploadedKeys.filter (fun k => deps.head k ≠ .found)).length > 0 := by
    obtain ⟨k, hk, hnf⟩ := hmiss
    have hmemf : k ∈ req.uploadedKeys.filter (fun k => deps.head k ≠ .found) :=
      List.mem_filter.mpr ⟨hk, by simp [hnf]⟩
    exact List.length_pos.mpr (List.ne_nil_of_mem hmemf)
  rw [UploadComplete_eq deps now req hvalid, if_pos hlen]
  exact ⟨rfl, rfl, hfe⟩

/-- C1 witness: one present and one absent key; the full (one-element)
absent list is collected and logged and the claim fails as
`missing_objects`. -/
theorem C1_missing_enumeration_witness :
    (UploadComplete ⟨fun k => if k = "present.json" then .found else .notFound, okGet,
        true, true⟩ sampleDate
        ⟨"abc-123", "myapp", "prod", ["present.json", "absent.json"], []⟩).status = 400 ∧
    (UploadComplete ⟨fun k => if k = "present.json" then .found else .notFound, okGet,
        true, true⟩ sampleDate
        ⟨"abc-123", "myapp", "prod", ["present.json", "absent.json"], []⟩).loggedMissing =
      ["absent.json"] := by
  have h := C1_missing_enumeration
    ⟨fun k => if k = "present.json" then .found else .notFound, okGet, true, true⟩
    sampleDate ⟨"abc-123", "myapp", "prod", ["present.json", "absent.json"], []⟩
    (by decide) (by decide) (by decide)
  exact ⟨h.1, h.2.2.trans (by decide)⟩

/-- C2: the code contradicts the claim (and its own comment).
`ObjectExists` maps every `HeadObject` error — transport failures
included — to `(false, nil)`, so an erroring existence check is classified
as the key being absent: with every check failing in transport,
`completeBundle` answers 400 `missing_objects` listing the key as absent
instead of aborting with the 500 verification-failed error, and
`VerifyObjectsExist` never returns an error at all. -/
theorem C2_transport_error_as_missing :
    UploadComplete ⟨errHead, okGet, true, true⟩ sampleDate
        ⟨"abc-123", "myapp", "prod", ["k1"], []⟩ =
      ⟨400, .failed ⟨"Some objects were not found in S3", "missing_objects", ""⟩,
        ["k1"], [], false⟩ ∧
    VerifyObjectsExist errHead ["k1"] = .ok ["k1"] := by
  exact ⟨by decide, rfl⟩

/-- C6: issueTicket is all-or-nothing: once the claim passes validation,
if any single per-slot presign request fails, the whole operation answers
the 500 `presign_failed` error — no partial ticket is returned. -/
theorem C6_all_or_nothing (cfg : Config) (presignPut : String → String → Option String)
    (freshID : String) (now : GoDate) (req : UploadTicketRequest)
    (hvalid : ValidateUploadTicketRequest req cfg = [])
    (hfail : ∃ k ct, (k, ct) ∈ slotRequests (NewBuilder req.project req.env freshID now)
      req ∧ presignPut k ct = none) :
    UploadTicket cfg presignPut freshID now req =
      .error (500, ⟨"Failed to generate presigned URLs", "presign_failed", ""⟩) := by
  rw [UploadTicket, if_neg (by simp [hvalid])]
  cases hg : generatePresignedURLs presignPut (NewBuilder req.project req.env freshID now)
      req with
  | none => rfl
  | some u =>
    obtain ⟨k, ct, hmem, hnone⟩ := hfail
    obtain ⟨v, hv⟩ := (gen_some_spec _ _ _ _ hg).1 k ct hmem
    rw [hnone] at hv
    cases hv

/-- C6 witness: with a Storage Authority that refuses every presign, a
valid ticket request fails as a whole with `presign_failed`. -/
theorem C6_all_or_nothing_witness :
    UploadTicket sampleCfg failPresign "abc-123" sampleDate sampleTicketReq =
      .error (500, ⟨"Failed to generate presigned URLs", "presign_failed", ""⟩) :=
  C6_all_or_nothing sampleCfg failPresign "abc-123" sampleDate sampleTicketReq
    (by decide)
    ⟨(NewBuilder "myapp" "prod" "abc-123" sampleDate).envelope, "application/json",
      by decide, rfl⟩

/-- C7: every successfully issued ticket carries exactly 4 (required) + 1
(response) + (number of declared files) write-authorizations. -/
theorem C7_ticket_slot_count (cfg : Config) (presignPut : String → String → Option String)
    (freshID : String) (now : GoDate) (req : UploadTicketRequest)
    (resp : UploadTicketResponse)
    (h : UploadTicket cfg presignPut freshID now req = .ok resp) :
    resp.uploads.slots.length = 4 + 1 + req.request.files.length := by
  rw [UploadTicket] at h
  by_cases hv : ValidateUploadTicketRequest req cfg = []
  · rw [if_neg (by simp [hv])] at h
    cases hg : generatePresignedURLs presignPut
        (NewBuilder req.project req.env freshID now) req with
    | none => rw [hg] at h; cases h
    | some u =>
      rw [hg] at h
      cases h
      have hlen := (gen_some_spec _ _ _ _ hg).2
      simp [UploadURLs.slots, hlen]
      omega
  · rw [if_pos hv] at h
    cases h

/-- C7 witness: a valid request declaring one attachment receives a
ticket with 4 + 1 + 1 write-authorizations. -/
theorem C7_ticket_slot_count_witness :
    ∃ resp, UploadTicket sampleCfg okPresign "abc-123" sampleDate sampleTicketReq =
        .ok resp ∧
      resp.uploads.slots.length = 4 + 1 + sampleTicketReq.request.files.length := by
  cases hU : UploadTicket sampleCfg okPresign "abc-123" sampleDate sampleTicketReq with
  | error e =>
    have hnone : ticketRespOf (UploadTicket sampleCfg okPresign "abc-123" sampleDate
        sampleTicketReq) = none := by rw [hU]; rfl
    exact absurd hnone (by decide)
  | ok resp =>
    exact ⟨resp, rfl, C7_ticket_slot_count sampleCfg okPresign "abc-123" sampleDate
      sampleTicketReq resp hU⟩

/-- C8: a completion claim that passes validation and whose claimed keys
are all present yields the 200 `ok` acknowledgment and hands the Notifier
exactly one notification (the emailer is wired, i.e. non-nil). -/
theorem C8_success_single_notification (deps : CompleteDeps) (now : GoDate)
    (req : UploadCompleteRequest)
    (hvalid : ValidateUploadCompleteRequest req = [])
    (hall : ∀ k ∈ req.uploadedKeys, deps.head k = .found)
    (hemail : deps.emailerPresent = true) :
    (UploadComplete deps now req).status = 200 ∧
    (UploadComplete deps now req).body = .ok "ok" ∧
    (UploadComplete deps now req).notifications.length = 1 := by
  have hfil : req.uploadedKeys.filter (fun k => deps.head k ≠ .found) = [] := by
    rw [List.filter_eq_nil_iff]
    intro k hk
    simp [hall k hk]
  rw [UploadComplete_eq deps now req hvalid, if_neg (by rw [hfil]; simp)]
  simp [hemail]

/-- C8 witness: all four claimed keys present, one notification. -/
theorem C8_success_single_notification_witness :
    (UploadComplete ⟨allFoundHead, okGet, true, true⟩ sampleDate
      sampleCompleteReq).status = 200 ∧
    (UploadComplete ⟨allFoundHead, okGet, true, true⟩ sampleDate
      sampleCompleteReq).body = .ok "ok" ∧
    (UploadComplete ⟨allFoundHead, okGet, true, true⟩ sampleDate
      sampleCompleteReq).notifications.length = 1 :=
  C8_success_single_notification ⟨allFoundHead, okGet, true, true⟩ sampleDate
    sampleCompleteReq (by decide) (by decide) rfl

/-- C9: a Notifier failure is non-fatal: on an otherwise-successful
completion, the response with a failing send is identical to the response
with a succeeding send — the 200 `ok` acknowledgment — and the one
notification attempt still happens; the failure is only logged. -/
theorem C9_notifier_failure_nonfatal (head : String → HeadResult)
    (pg : String → Option String) (now : GoDate) (req : UploadCompleteRequest)
    (hvalid : ValidateUploadCompleteRequest req = [])
    (hall : ∀ k ∈ req.uploadedKeys, head k = .found) :
    (UploadComplete ⟨head, pg, true, false⟩ now req).status =
      (UploadComplete ⟨head, pg, true, true⟩ now req).status ∧
    (UploadComplete ⟨head, pg, true, false⟩ now req).body =
      (UploadComplete ⟨head, pg, true, true⟩ now req).body ∧
    (UploadComplete ⟨head, pg, true, false⟩ now req).status = 200 ∧
    (UploadComplete ⟨head, pg, true, false⟩ now req).body = .ok "ok" ∧
    (UploadComplete ⟨head, pg, true, false⟩ now req).notifications.length = 1 ∧
    (UploadComplete ⟨head, pg, true, false⟩ now req).emailErrorLogged = true := by
  have hfil : req.uploadedKeys.filter (fun k => head k ≠ .found) = [] := by
    rw [List.filter_eq_nil_iff]
    intro k hk
    simp [hall k hk]
  have hneg : ¬ (req.uploadedKeys.filter (fun k => head k ≠ .found)).length > 0 := by
    rw [hfil]; simp
  rw [UploadComplete_eq ⟨head, pg, true, false⟩ now req hvalid,
    UploadComplete_eq ⟨head, pg, true, true⟩ now req hvalid]
  simp only [if_neg hneg]
  simp

/-- C9 witness: failing send, same 200 `ok`, one attempt, error logged. -/
theorem C9_notifier_failure_nonfatal_witness :
    (UploadComplete ⟨allFoundHead, okGet, true, false⟩ sampleDate
      sampleCompleteReq).status = 200 ∧
    (UploadComplete ⟨allFoundHead, okGet, true, false⟩ sampleDate
      sampleCompleteReq).body = .ok "ok" ∧
    (UploadComplete ⟨allFoundHead, okGet, true, false⟩ sampleDate
      sampleCompleteReq).notifications.length = 1 := by
  have h := C9_notifier_failure_nonfatal allFoundHead okGet sampleDate
    sampleCompleteReq (by decide) (by decide)
  exact ⟨h.2.2.1, h.2.2.2.1, h.2.2.2.2.1⟩

/-- C10: verification looks only at the literal claimed keys: two valid
claims with the same key list get the same status, body and logged
missing list whatever their bundleID/project/env, and when every claimed
key exists the claim succeeds — even if the keys belong to a different
bundle than the one named in the claim. -/
theorem C10_keys_only_verification (deps : CompleteDeps) (now : GoDate)
    (req1 req2 : UploadCompleteRequest)
    (h1 : ValidateUploadCompleteRequest req1 = [])
    (h2 : ValidateUploadCompleteRequest req2 = [])
    (hkeys : req1.uploadedKeys = req2.uploadedKeys) :
    ((UploadComplete deps now req1).status = (UploadComplete deps now req2).status ∧
     (UploadComplete deps now req1).body = (UploadComplete deps now req2).body ∧
     (UploadComplete deps now req1).loggedMissing =
       (UploadComplete deps now req2).loggedMissing) ∧
    ((∀ k ∈ req1.uploadedKeys, deps.head k = .found) →
      (UploadComplete deps now req1).status = 200 ∧
      (UploadComplete deps now req1).body = .ok "ok") := by
  rw [UploadComplete_eq deps now req1 h1, UploadComplete_eq deps now req2 h2, hkeys]
  by_cases hpos : (req2.uploadedKeys.filter (fun k => deps.head k ≠ .found)).length > 0
  · simp only [if_pos hpos]
    refine ⟨by simp, ?_⟩
    intro hall
    exfalso
    have hfil : req2.uploadedKeys.filter (fun k => deps.head k ≠ .found) = [] := by
      rw [List.filter_eq_nil_iff]
      intro k hk
      have hfound := hall k (hkeys ▸ hk)
      simp [hfound]
    rw [hfil] at hpos
    simp at hpos
  · simp only [if_neg hpos]
    exact ⟨by simp, fun _ => by simp⟩

/-- C10 witness: a claim naming bundle `zzz-999` of project `otherapp`
but listing only bundle `abc-123`'s keys passes verification and
succeeds. -/
theorem C10_keys_only_verification_witness :
    (UploadComplete ⟨allFoundHead, okGet, true, true⟩ sampleDate
      ⟨"zzz-999", "otherapp", "stage", sampleCompleteReq.uploadedKeys, []⟩).status =
      (UploadComplete ⟨allFoundHead, okGet, true, true⟩ sampleDate
        sampleCompleteReq).status ∧
    (UploadComplete ⟨allFoundHead, okGet, true, true⟩ sampleDate
      ⟨"zzz-999", "otherapp", "stage", sampleCompleteReq.uploadedKeys, []⟩).status =
      200 := by
  have h := C10_keys_only_verification ⟨allFoundHead, okGet, true, true⟩ sampleDate
    ⟨"zzz-999", "otherapp", "stage", sampleCompleteReq.uploadedKeys, []⟩
    sampleCompleteReq (by decide) (by decide) rfl
  exact ⟨h.1.1, (h.2 (by decide)).1⟩

end FailureLogger
